import Mathlib

/-!
Verification of the timeline layout and note-cache logic of the
TaskManagement front end.

The definitions below are a shallow embedding of the code in
`src/routes/ProjectDetailPage.tsx` (range resolution, column sizing,
note-cache reconciliation and fetch effects, cell flags, action lookup),
`src/utils/projectDates.ts` (`parseProjectStartDate`) and
`src/hooks/useActions.ts`.  Date strings and the `dayjs` library are
modelled at their interface boundary: a string is classified by the one
shape it can have (well-formed ISO-8601, well-formed `DD-MM-YYYY`, or
neither), and day-precision date arithmetic is embedded through the
standard days-from-civil calendar function, which agrees with `dayjs`
`startOf('day') ... diff(..., 'day')` on day-precision values.
-/

namespace TaskTimeline

/-- A calendar date at day precision (year, month, day), the value a
successfully parsed `dayjs` object denotes after `startOf('day')`. -/
structure Ymd where
  y : Nat
  m : Nat
  d : Nat
deriving DecidableEq, Repr

/-- Days-from-civil: the serial day number of a calendar date (shifted so
the result is a `Nat`).  For valid calendar dates the difference of two
`civilDays` values is exactly the number of calendar days between them,
which is what `dayjs` `diff(other, 'day')` returns for two
day-precision dates. -/
def civilDays (date : Ymd) : Nat :=
  let yAdj := if date.m ≤ 2 then date.y - 1 else date.y
  let era := yAdj / 400
  let yoe := yAdj % 400
  let mp := (date.m + 9) % 12
  let doy := (153 * mp + 2) / 5 + date.d - 1
  let doe := yoe * 365 + yoe / 4 - yoe / 100 + doy
  era * 146097 + doe

/-- `dayDiff a b` models `a.startOf('day').diff(b.startOf('day'), 'day')`:
the signed number of calendar days from `b` to `a`. -/
def dayDiff (a b : Ymd) : Int :=
  (civilDays a : Int) - (civilDays b : Int)

/-- Classification of a date string by the one parse-relevant shape it can
have.  `isoStr date` stands for a well-formed ISO-8601 date string (e.g.
`2024-01-05`, possibly with a time part) denoting calendar day `date`;
`dmyStr date` stands for a well-formed `DD-MM-YYYY` string (e.g.
`05-01-2024`) denoting `date`; `badStr` stands for every other string
(malformed shape or an impossible calendar date).  The two well-formed
shapes are disjoint: ISO is `YYYY-MM-DD` (4-2-2 digit groups), the API
format is `DD-MM-YYYY` (2-2-4). -/
inductive DateStr where
  | isoStr (date : Ymd)
  | dmyStr (date : Ymd)
  | badStr
deriving DecidableEq, Repr

/-- Models `dayjs(value)` (default parse): accepts well-formed ISO-8601
strings.  The `Date`-constructor fallback for non-ISO shapes is
environment-dependent and is modelled as invalid. -/
def dayjsLoose : DateStr → Option Ymd
  | .isoStr date => some date
  | _ => none

/-- Models `dayjs(value, 'DD-MM-YYYY', true)` (strict custom format):
accepts exactly the well-formed `DD-MM-YYYY` strings. -/
def dayjsStrictDMY : DateStr → Option Ymd
  | .dmyStr date => some date
  | _ => none

/-- The `projectStart` memo of `ProjectDetailPage.tsx` (lines 325-331):
if `project.startDate` is absent the anchor is `null`; otherwise the
string is parsed with `dayjs(value, 'DD-MM-YYYY', true)` and the anchor
is the parsed day, or `null` when that strict parse fails. -/
def projectStart (startDate : Option DateStr) : Option Ymd :=
  match startDate with
  | none => none
  | some value => dayjsStrictDMY value

/-- `parseProjectStartDate` from `src/utils/projectDates.ts`: try the
default (ISO) parse first, then the strict `DD-MM-YYYY` parse, and
return `null` if both fail. -/
def parseProjectStartDate (value : Option DateStr) : Option Ymd :=
  match value with
  | none => none
  | some v =>
    match dayjsLoose v with
    | some isoParsed => some isoParsed
    | none => dayjsStrictDMY v

/-- A note resource (`NoteRes` in `types.ts`); only the fields the cache
logic compares (`id`, `body`) are modelled. -/
structure NoteRes where
  id : String
  body : String
deriving DecidableEq, Repr

/-- A task resource (`TaskRes` in `types.ts`); presentation-only fields
(description, color, timestamps other than `updatedAt`) are omitted.
`note = none` models the field being `undefined` (not inlined by the
data source); `note = some none` models an inlined `null`;
`note = some (some n)` an inlined note. -/
structure TaskRes where
  id : String
  title : String
  startAt : Option DateStr
  endAt : Option DateStr
  duration : Option Int
  updatedAt : String
  note : Option (Option NoteRes)
deriving DecidableEq, Repr

/-- A tag resource (`TagRes` in `types.ts`); same layout-relevant fields
as a task, and tags never carry notes. -/
structure TagRes where
  id : String
  title : String
  startAt : Option DateStr
  endAt : Option DateStr
  duration : Option Int
  updatedAt : String
deriving DecidableEq, Repr

/-- The fields of a timeline entity that the layout computation reads
(`item.id`, `item.startAt`, `item.endAt`, `item.duration`). -/
structure TimelineItem where
  id : String
  startAt : Option DateStr
  endAt : Option DateStr
  duration : Option Int
deriving DecidableEq, Repr

/-- The layout view of a task. -/
def TaskRes.toItem (t : TaskRes) : TimelineItem :=
  ⟨t.id, t.startAt, t.endAt, t.duration⟩

/-- The layout view of a tag. -/
def TagRes.toItem (t : TagRes) : TimelineItem :=
  ⟨t.id, t.startAt, t.endAt, t.duration⟩

/-- The `entryType` discriminant of a timeline entry. -/
inductive EntryType where
  | task
  | tag
deriving DecidableEq, Repr

/-- One timeline row (`TimelineEntry` in `ProjectDetailPage.tsx`). -/
structure TimelineEntry where
  entryType : EntryType
  item : TimelineItem
deriving DecidableEq, Repr

/-- The `timelineEntries` memo (lines 112-122): tag entries first, then
task entries, in their given order (not sorted by date). -/
def timelineEntries (tags : List TagRes) (tasks : List TaskRes) : List TimelineEntry :=
  tags.map (fun tag => ⟨EntryType.tag, tag.toItem⟩) ++
    tasks.map (fun task => ⟨EntryType.task, task.toItem⟩)

/-- A resolved day range `{start, end}` (1-based day offsets). -/
structure DayRange where
  start : Int
  «end» : Int
deriving DecidableEq, Repr

/-- `MINIMUM_DAY_COLUMNS` from `ProjectDetailPage.tsx`. -/
def MINIMUM_DAY_COLUMNS : Int := 30

/-- The guard `typeof item.duration === 'number' && item.duration > 0`:
the usable duration of an item, if any. -/
def durationOf (item : TimelineItem) : Option Int :=
  match item.duration with
  | some n => if 0 < n then some n else none
  | none => none

/-- `max(1, date.startOf('day').diff(projectStart, 'day') + 1)`: the
1-based, clamped day offset of a date from the anchor. -/
def dayOffset (anchor date : Ymd) : Int :=
  max 1 (dayDiff date anchor + 1)

/-- The per-entity range resolution of the `columnCount` memo (lines
359-404): parse both sides with the default `dayjs` parse, clamp each to
a 1-based offset, derive a missing side from a positive duration, give
up if neither side resolves, normalize by `min`/`max`, and extend the
end so the span is at least the duration. -/
def resolveRange (anchor : Ymd) (item : TimelineItem) : Option DayRange :=
  let startDay0 := (item.startAt.bind dayjsLoose).map (dayOffset anchor)
  let endDay0 := (item.endAt.bind dayjsLoose).map (dayOffset anchor)
  let dur := durationOf item
  let startDay : Option Int :=
    match startDay0, endDay0, dur with
    | none, some e, some n => some (max 1 (e - n + 1))
    | s, _, _ => s
  let endDay : Option Int :=
    match startDay0, endDay0, dur with
    | some s, none, some n => some (s + n - 1)
    | _, e, _ => e
  match startDay.orElse (fun _ => endDay), endDay.orElse (fun _ => startDay) with
  | some tentativeStart, some tentativeEnd =>
    let normalizedStart := min tentativeStart tentativeEnd
    let normalizedEnd := max tentativeStart tentativeEnd
    let finalEnd :=
      match dur with
      | some n =>
        if normalizedStart + n - 1 > normalizedEnd then normalizedStart + n - 1
        else normalizedEnd
      | none => normalizedEnd
    some ⟨normalizedStart, finalEnd⟩
  | _, _ => none

/-- Lookup in a string-keyed JavaScript object or `Map`, modelled as an
association list with unique keys: the value at the first matching key. -/
def recordGet {A : Type} : List (String × A) → String → Option A
  | [], _ => none
  | p :: rest, key => if p.1 == key then some p.2 else recordGet rest key

/-- Keyed update of a string-keyed JavaScript object or `Map` (replaces
the value in place if the key exists, appends otherwise — both
`next[k] = v` on an object and `Map.set` behave this way). -/
def recordSet {A : Type} : List (String × A) → String → A → List (String × A)
  | [], key, value => [(key, value)]
  | p :: rest, key, value =>
    if p.1 == key then (key, value) :: rest else p :: recordSet rest key value

/-- The `rangeMap` built by the `columnCount` memo: one `Map.set` per
entity whose range resolves, in entry order. -/
def resolvedRanges (anchor : Ymd) (entries : List TimelineEntry) : List (String × DayRange) :=
  entries.foldl
    (fun rangeMap entry =>
      match resolveRange anchor entry.item with
      | some range => recordSet rangeMap entry.item.id range
      | none => rangeMap)
    []

/-- The `maxDay` accumulator of the `columnCount` memo: starts at `0` and
takes every resolved range's `end` into account. -/
def timelineMaxDay (anchor : Ymd) (entries : List TimelineEntry) : Int :=
  entries.foldl
    (fun maxDay entry =>
      match resolveRange anchor entry.item with
      | some range => if range.«end» > maxDay then range.«end» else maxDay
      | none => maxDay)
    0

/-- The `columnCount` computed by the memo (lines 348-418): with a `null`
anchor it is `MINIMUM_DAY_COLUMNS`; otherwise
`max(maxDay, MINIMUM_DAY_COLUMNS) + 10` (10 days of padding). -/
def columnCount (startDate : Option DateStr) (entries : List TimelineEntry) : Int :=
  match projectStart startDate with
  | none => MINIMUM_DAY_COLUMNS
  | some anchor => max (timelineMaxDay anchor entries) MINIMUM_DAY_COLUMNS + 10

/-- The `taskDayRange` map returned by the same memo: empty with a `null`
anchor, the built range map otherwise. -/
def taskDayRange (startDate : Option DateStr) (entries : List TimelineEntry) : List (String × DayRange) :=
  match projectStart startDate with
  | none => []
  | some anchor => resolvedRanges anchor entries

/-- The ends of all resolved ranges, in entry order (specification-side
view of the `maxDay` computation). -/
def resolvedEnds (anchor : Ymd) (entries : List TimelineEntry) : List Int :=
  entries.filterMap (fun e => (resolveRange anchor e.item).map (fun r => r.«end»))

/-- The `isActive` cell flag (lines 1009-1013): the row has a range and
`range.start ≤ dayNumber ≤ range.end`. -/
def isActive (dayRange : Option DayRange) (dayNumber : Int) : Bool :=
  match dayRange with
  | some range => decide (range.start ≤ dayNumber) && decide (dayNumber ≤ range.«end»)
  | none => false

/-- The `isEndDay` cell flag (line 1014): active and
`dayRange.end === dayNumber`. -/
def isEndDay (dayRange : Option DayRange) (dayNumber : Int) : Bool :=
  isActive dayRange dayNumber &&
    (match dayRange with
     | some range => decide (range.«end» = dayNumber)
     | none => false)

/-- An action resource (`ActionRes` in `types.ts`); timestamps are
omitted. -/
structure ActionRes where
  id : String
  taskId : String
  day : Int
  details : String
deriving DecidableEq, Repr

/-- The per-cell action lookup of `handleCellClick` (lines 622-627) and
of the `hasAction` cell check: `actions.find(a => a.taskId === taskId &&
a.day === dayNumber)` — the first matching action, or none.  Being a
total function into `Option`, it raises no exception. -/
def findExistingAction (actions : List ActionRes) (taskId : String) (dayNumber : Int) : Option ActionRes :=
  actions.find? (fun action => action.taskId == taskId && action.day == dayNumber)

/-- One entry of the note cache (`TaskNoteCacheEntry` in
`ProjectDetailPage.tsx`): the fetched note (or `null`) together with the
owning task's `updatedAt` snapshot taken when the entry was written. -/
structure TaskNoteCacheEntry where
  note : Option NoteRes
  taskUpdatedAt : String
deriving DecidableEq, Repr

/-- The `taskNotes` state: a string-keyed record of cache entries. -/
abbrev TaskNoteCache := List (String × TaskNoteCacheEntry)

/-- The keep-condition of the reconcile effect (lines 131-160): a cache
entry survives iff its task id is still present and its `taskUpdatedAt`
snapshot equals the task's current `updatedAt`. -/
def keepEntry (tasks : List TaskRes) (p : String × TaskNoteCacheEntry) : Bool :=
  match tasks.find? (fun t => t.id == p.1) with
  | some currentTask => p.2.taskUpdatedAt == currentTask.updatedAt
  | none => false

/-- The cache state produced by the reconcile effect: reset to empty when
the task list is empty, otherwise drop the entries that fail
`keepEntry` (the `forEach` over `Object.entries(prev)` copies exactly
the kept entries, in order). -/
def reconcile (tasks : List TaskRes) (prev : TaskNoteCache) : TaskNoteCache :=
  if tasks.isEmpty then [] else prev.filter (keepEntry tasks)

/-- The `changed` flag of the reconcile effect's non-empty branch: set
exactly when some entry of `prev` is dropped.  When it is `false` the
updater returns `prev` itself, so the state does not change and no
downstream effect re-runs. -/
def reconcileChanged (tasks : List TaskRes) (prev : TaskNoteCache) : Bool :=
  prev.any (fun p => !keepEntry tasks p)

/-- The filter predicate of `tasksNeedingNotes` (lines 167-178): a task
needs a background note fetch iff its `note` field is not inlined
(`undefined`) and there is no cache entry, or the cache entry's
snapshot differs from the task's current `updatedAt`. -/
def taskNeedsNote (cache : TaskNoteCache) (task : TaskRes) : Bool :=
  match task.note with
  | some _ => false
  | none =>
    match recordGet cache task.id with
    | none => true
    | some entry => entry.taskUpdatedAt != task.updatedAt

/-- `tasksNeedingNotes`: the tasks marked for a background note fetch. -/
def tasksNeedingNotes (tasks : List TaskRes) (cache : TaskNoteCache) : List TaskRes :=
  tasks.filter (taskNeedsNote cache)

/-- One element of the resolved `Promise.all` batch (lines 188-197):
`{taskId, taskUpdatedAt, note}`, where `note` is `content[0] ?? null`. -/
structure FetchResult where
  taskId : String
  taskUpdatedAt : String
  note : Option NoteRes
deriving DecidableEq, Repr

/-- The success-path cache update (lines 203-221): write
`{note, taskUpdatedAt}` for each result unless an identical entry (same
snapshot, same note id and body) is already present. -/
def applyFetchSuccess (results : List FetchResult) (prev : TaskNoteCache) : TaskNoteCache :=
  results.foldl
    (fun next r =>
      match recordGet next r.taskId with
      | some existing =>
        if existing.taskUpdatedAt == r.taskUpdatedAt
            && existing.note.map NoteRes.id == r.note.map NoteRes.id
            && existing.note.map NoteRes.body == r.note.map NoteRes.body
        then next
        else recordSet next r.taskId ⟨r.note, r.taskUpdatedAt⟩
      | none => recordSet next r.taskId ⟨r.note, r.taskUpdatedAt⟩)
    prev

/-- The failure-path (catch branch) cache update (lines 227-240): for
every task of the failed batch, write `{note: null, taskUpdatedAt:
task.updatedAt}` unless that exact entry is already present. -/
def applyFetchFailure (batchTasks : List TaskRes) (prev : TaskNoteCache) : TaskNoteCache :=
  batchTasks.foldl
    (fun next task =>
      match recordGet next task.id with
      | some existing =>
        if existing.taskUpdatedAt == task.updatedAt && existing.note == none then next
        else recordSet next task.id ⟨none, task.updatedAt⟩
      | none => recordSet next task.id ⟨none, task.updatedAt⟩)
    prev

/-- One issued fetch batch: the `tasksNeedingNotes` snapshot it was
issued for, and its effect-closure `ignore` flag (set by the effect's
cleanup).  A batch stays pending until its `Promise.all` settles; the
HTTP requests are outstanding the whole time, whether or not the batch
has been marked ignored. -/
structure FetchBatch where
  batchTasks : List TaskRes
  ignore : Bool
deriving DecidableEq, Repr

/-- The state of the note-fetching subsystem: the current task list, the
`taskNotes` cache, and the pending fetch batches in issue order. -/
structure NotesState where
  tasks : List TaskRes
  taskNotes : TaskNoteCache
  pending : List FetchBatch
deriving DecidableEq, Repr

/-- The cleanup of the previous note-fetch effect run (lines 244-246):
set the `ignore` flag of the batch that run issued.  Earlier batches are
already ignored, so marking every pending batch is the same action. -/
def cleanupFetchEffect (s : NotesState) : NotesState :=
  { s with pending := s.pending.map (fun b => { b with ignore := true }) }

/-- One run of the note-fetch effect (lines 162-247), as React performs
it when a dependency changes: first the previous run's cleanup, then the
body, which returns early when the task list is empty or no task needs a
note, and otherwise issues one batch for the `tasksNeedingNotes`
snapshot. -/
def runFetchEffect (s : NotesState) : NotesState :=
  let s1 := cleanupFetchEffect s
  if s1.tasks.isEmpty then s1
  else
    let needed := tasksNeedingNotes s1.tasks s1.taskNotes
    if needed.isEmpty then s1
    else { s1 with pending := s1.pending ++ [⟨needed, false⟩] }

/-- One run of the reconcile effect (lines 131-160). -/
def runReconcileEffect (s : NotesState) : NotesState :=
  { s with taskNotes := reconcile s.tasks s.taskNotes }

/-- The task list changes (new data arrives from the server). -/
def setTasks (newTasks : List TaskRes) (s : NotesState) : NotesState :=
  { s with tasks := newTasks }

/-- Pending batch `i` settles with a network failure: the batch is no
longer pending, and if its effect run was not cleaned up the catch
branch writes the failure entries; an ignored batch's result is
discarded (lines 223-225). -/
def completeFetchFailure (i : Nat) (s : NotesState) : NotesState :=
  match s.pending[i]? with
  | none => s
  | some b =>
    let s1 := { s with pending := s.pending.eraseIdx i }
    if b.ignore then s1
    else { s1 with taskNotes := applyFetchFailure b.batchTasks s1.taskNotes }

/-- Pending batch `i` settles successfully; `fetched` gives the note the
server returned for each task id (`content[0] ?? null`).  An ignored
batch's result is discarded (lines 199-201). -/
def completeFetchSuccess (i : Nat) (fetched : String → Option NoteRes) (s : NotesState) : NotesState :=
  match s.pending[i]? with
  | none => s
  | some b =>
    let s1 := { s with pending := s.pending.eraseIdx i }
    if b.ignore then s1
    else
      let results := b.batchTasks.map (fun task => FetchResult.mk task.id task.updatedAt (fetched task.id))
      { s1 with taskNotes := applyFetchSuccess results s1.taskNotes }

/-- The number of outstanding (issued, unsettled) fetch requests that
concern a given task id. -/
def outstandingFor (s : NotesState) (taskId : String) : Nat :=
  (s.pending.filter (fun b => b.batchTasks.any (fun t => t.id == taskId))).length

/-- The number of pending batches whose results would still be applied
(not marked ignored by a cleanup). -/
def liveBatchCount (s : NotesState) : Nat :=
  (s.pending.filter (fun b => !b.ignore)).length

/-- A concrete project `startDate` in the API format: `01-01-2024`,
anchoring the timeline at 2024-01-01. -/
def sampleAnchorStr : DateStr := DateStr.dmyStr ⟨2024, 1, 1⟩

/-- Task A of the concrete scenario: `startAt = 2024-01-05`,
`endAt = 2024-01-06`, no duration. -/
def taskA : TaskRes :=
  { id := "task-a", title := "Task A",
    startAt := some (DateStr.isoStr ⟨2024, 1, 5⟩),
    endAt := some (DateStr.isoStr ⟨2024, 1, 6⟩),
    duration := none, updatedAt := "2024-01-02T00:00:00Z", note := none }

/-- Task B of the concrete scenario: only `endAt = 2024-01-10` and
`duration = 3`. -/
def taskB : TaskRes :=
  { id := "task-b", title := "Task B",
    startAt := none,
    endAt := some (DateStr.isoStr ⟨2024, 1, 10⟩),
    duration := some 3, updatedAt := "2024-01-02T00:00:00Z", note := none }

/-- A task spanning day 1 to day 45 from the 2024-01-01 anchor:
`startAt = 2024-01-01`, `endAt = 2024-02-14`. -/
def taskWide : TaskRes :=
  { id := "task-wide", title := "Task Wide",
    startAt := some (DateStr.isoStr ⟨2024, 1, 1⟩),
    endAt := some (DateStr.isoStr ⟨2024, 2, 14⟩),
    duration := none, updatedAt := "2024-01-02T00:00:00Z", note := none }

/-- The row list of the concrete scenario (no tags, tasks A and B). -/
def scenarioEntries : List TimelineEntry := timelineEntries [] [taskA, taskB]

/-- A bare task (no dates, no inline note) used in the fetch traces. -/
def noteTask1 : TaskRes :=
  { id := "t1", title := "Task 1", startAt := none, endAt := none,
    duration := none, updatedAt := "2024-03-01T00:00:00Z", note := none }

/-- A second bare task used in the fetch traces. -/
def noteTask2 : TaskRes :=
  { id := "t2", title := "Task 2", startAt := none, endAt := none,
    duration := none, updatedAt := "2024-03-01T00:00:00Z", note := none }

/-- Initial fetch-trace state: two tasks, empty cache, nothing pending. -/
def fetchTrace0 : NotesState :=
  { tasks := [noteTask1, noteTask2], taskNotes := [], pending := [] }

/-- After the first note-fetch effect run: one batch for `t1` and `t2`
is in flight. -/
def fetchTrace1 : NotesState := runFetchEffect fetchTrace0

/-- `t2` is removed from the task list while the first batch is still in
flight; the reconcile effect and the note-fetch effect re-run (the
fetch effect's cleanup marks the first batch ignored and its body
issues a fresh batch for `t1`, whose first request has not settled). -/
def fetchTrace2 : NotesState :=
  runFetchEffect (runReconcileEffect (setTasks [noteTask1] fetchTrace1))

/-! ### Helper lemmas about the record (keyed object / map) model -/

theorem recordGet_recordSet_self {A : Type} (m : List (String × A)) (k : String) (v : A) :
    recordGet (recordSet m k v) k = some v := by
  induction m with
  | nil => simp [recordGet, recordSet]
  | cons p rest ih =>
    by_cases h : p.1 = k
    · simp [recordSet, recordGet, h]
    · simp [recordSet, recordGet, h, ih]

theorem recordGet_recordSet_ne {A : Type} (m : List (String × A)) (k k' : String) (v : A)
    (hne : k ≠ k') : recordGet (recordSet m k v) k' = recordGet m k' := by
  induction m with
  | nil => simp [recordGet, recordSet, hne]
  | cons p rest ih =>
    by_cases h : p.1 = k
    · subst h
      simp only [recordSet, beq_self_eq_true, if_true]
      simp [recordGet, hne]
    · have hb : (p.1 == k) = false := by simp [h]
      simp only [recordSet, hb, Bool.false_eq_true, if_false]
      by_cases h' : p.1 = k'
      · simp [recordGet, h']
      · simp [recordGet, h', ih]

theorem recordGet_eq_none_of_not_mem {A : Type} {m : List (String × A)} {k : String}
    (h : k ∉ m.map Prod.fst) : recordGet m k = none := by
  induction m with
  | nil => rfl
  | cons p rest ih =>
    simp only [List.map_cons, List.mem_cons, not_or] at h
    have hne : p.1 ≠ k := fun he => h.1 he.symm
    have hb : (p.1 == k) = false := by simp [hne]
    simp only [recordGet, hb, Bool.false_eq_true, if_false]
    exact ih h.2

theorem recordGet_filter_none {A : Type} {m : List (String × A)} {p : String × A → Bool}
    {k : String} (h : recordGet m k = none) : recordGet (m.filter p) k = none := by
  induction m with
  | nil => rfl
  | cons q rest ih =>
    by_cases hq : q.1 = k
    · simp [recordGet, hq] at h
    · have hb : (q.1 == k) = false := by simp [hq]
      simp only [recordGet, hb, Bool.false_eq_true, if_false] at h
      by_cases hp : p q = true
      · simp only [List.filter_cons, hp, if_true, recordGet, hb, Bool.false_eq_true, if_false]
        exact ih h
      · simp only [List.filter_cons, hp, if_false]
        exact ih h

theorem recordGet_filter_some {A : Type} {m : List (String × A)} {p : String × A → Bool}
    {k : String} {v : A} (hnd : (m.map Prod.fst).Nodup) (h : recordGet m k = some v) :
    recordGet (m.filter p) k = if p (k, v) then some v else none := by
  induction m with
  | nil => cases h
  | cons q rest ih =>
    obtain ⟨k1, v1⟩ := q
    simp only [List.map_cons, List.nodup_cons] at hnd
    by_cases hq : k1 = k
    · subst hq
      simp only [recordGet, beq_self_eq_true, if_true, Option.some.injEq] at h
      subst h
      have hnone : recordGet rest k1 = none :=
        recordGet_eq_none_of_not_mem hnd.1
      by_cases hp : p (k1, v1) = true
      · simp [List.filter_cons, hp, recordGet]
      · rw [List.filter_cons, if_neg hp, if_neg hp]
        exact recordGet_filter_none hnone
    · have hb : (k1 == k) = false := by simp [hq]
      simp only [recordGet, hb, Bool.false_eq_true, if_false] at h
      by_cases hp : p (k1, v1) = true
      · simp only [List.filter_cons, hp, if_true, recordGet, hb, Bool.false_eq_true, if_false]
        exact ih hnd.2 h
      · simp only [List.filter_cons, hp, if_false]
        exact ih hnd.2 h

/-- With pairwise distinct task ids, `find?` on the id of a member task
returns that task. -/
theorem find?_task_of_mem {tasks : List TaskRes} {t : TaskRes}
    (hnd : (tasks.map TaskRes.id).Nodup) (hmem : t ∈ tasks) :
    tasks.find? (fun x => x.id == t.id) = some t := by
  induction tasks with
  | nil => cases hmem
  | cons h rest ih =>
    simp only [List.map_cons, List.nodup_cons] at hnd
    rcases List.mem_cons.mp hmem with rfl | hm
    · simp [List.find?]
    · have hne : h.id ≠ t.id := by
        intro he
        exact hnd.1 (he ▸ List.mem_map_of_mem TaskRes.id hm)
      have hb : (h.id == t.id) = false := by simp [hne]
      rw [List.find?_cons_of_neg _ (by simp [hb]), ih hnd.2 hm]

/-! ### Helper lemmas about maxima and range resolution -/

theorem foldl_max_init_le (l : List Int) (a : Int) : a ≤ l.foldl max a := by
  induction l generalizing a with
  | nil => simp
  | cons x xs ih => exact le_trans (le_max_left a x) (ih (max a x))

theorem mem_le_foldl_max {l : List Int} {y : Int} (hy : y ∈ l) :
    ∀ a : Int, y ≤ l.foldl max a := by
  induction l with
  | nil => cases hy
  | cons x xs ih =>
    intro a
    rcases List.mem_cons.mp hy with rfl | h
    · exact le_trans (le_max_right a y) (foldl_max_init_le xs (max a y))
    · exact ih h (max a x)

theorem foldl_max_eq_or_mem (l : List Int) : ∀ a : Int,
    l.foldl max a = a ∨ l.foldl max a ∈ l := by
  induction l with
  | nil => exact fun a => Or.inl rfl
  | cons x xs ih =>
    intro a
    rw [List.foldl_cons]
    rcases ih (max a x) with h | h
    · rw [h]
      rcases le_total x a with hxa | hax
      · exact Or.inl (max_eq_left hxa)
      · rw [max_eq_right hax]
        exact Or.inr (List.mem_cons_self x xs)
    · exact Or.inr (List.mem_cons_of_mem x h)

theorem timelineMaxDay_eq_foldl (anchor : Ymd) (entries : List TimelineEntry) :
    timelineMaxDay anchor entries = (resolvedEnds anchor entries).foldl max 0 := by
  suffices h : ∀ a : Int,
      entries.foldl
        (fun maxDay entry =>
          match resolveRange anchor entry.item with
          | some range => if range.«end» > maxDay then range.«end» else maxDay
          | none => maxDay) a
      = (resolvedEnds anchor entries).foldl max a from h 0
  induction entries with
  | nil => intro a; rfl
  | cons e rest ih =>
    intro a
    rw [List.foldl_cons]
    cases hr : resolveRange anchor e.item with
    | none =>
      simp only [hr, resolvedEnds, List.filterMap_cons, Option.map_none]
      exact ih a
    | some r =>
      simp only [hr, resolvedEnds, List.filterMap_cons, Option.map_some, List.foldl_cons]
      have : (if r.«end» > a then r.«end» else a) = max a r.«end» := by
        rcases le_or_lt r.«end» a with h | h
        · rw [if_neg (not_lt.mpr h), max_eq_left h]
        · rw [if_pos h, max_eq_right (le_of_lt h)]
      rw [this]
      exact ih (max a r.«end»)

theorem one_le_dayOffset (anchor date : Ymd) : 1 ≤ dayOffset anchor date :=
  le_max_left 1 _

theorem durationOf_pos {item : TimelineItem} {n : Int} (h : durationOf item = some n) :
    0 < n := by
  cases hd : item.duration with
  | none => simp [durationOf, hd] at h
  | some m =>
    simp only [durationOf, hd] at h
    by_cases hm : 0 < m
    · rw [if_pos hm] at h
      cases h
      exact hm
    · rw [if_neg hm] at h
      cases h

/-- The normalization tail of `resolveRange` keeps `1 ≤ start ≤ end`
whenever both tentative sides are at least `1` and any duration used for
the extension is positive. -/
theorem normalized_range_bounds (ts te : Int) (dur : Option Int)
    (hts : 1 ≤ ts) (hte : 1 ≤ te) :
    (∀ n, dur = some n → 0 < n) →
    1 ≤ min ts te ∧
      min ts te ≤
        (match dur with
         | some n =>
           if min ts te + n - 1 > max ts te then min ts te + n - 1 else max ts te
         | none => max ts te) := by
  cases dur with
  | none => exact fun _ => ⟨le_min hts hte, min_le_max⟩
  | some n =>
    intro hdur
    have hn : 0 < n := hdur n rfl
    refine ⟨le_min hts hte, ?_⟩
    dsimp only
    by_cases hcmp : min ts te + n - 1 > max ts te
    · rw [if_pos hcmp]
      omega
    · rw [if_neg hcmp]
      exact min_le_max

theorem resolveRange_bounds {anchor : Ymd} {item : TimelineItem} {r : DayRange}
    (h : resolveRange anchor item = some r) : 1 ≤ r.start ∧ r.start ≤ r.«end» := by
  unfold resolveRange at h
  have hdur : ∀ n, durationOf item = some n → 0 < n := fun n hn => durationOf_pos hn
  cases hs : item.startAt.bind dayjsLoose <;> cases he : item.endAt.bind dayjsLoose <;>
    cases hd : durationOf item <;>
    simp only [hs, he, hd, Option.map_none, Option.map_some, Option.some_orElse',
      Option.none_orElse'] at h
  case none.none.none => cases h
  case none.none.some => cases h
  case none.some.none e =>
    cases h
    exact normalized_range_bounds _ _ none (one_le_dayOffset anchor e)
      (one_le_dayOffset anchor e) (by intro n hn; cases hn)
  case none.some.some e n =>
    cases h
    exact normalized_range_bounds _ _ (some n) (le_max_left 1 _)
      (one_le_dayOffset anchor e) (by rw [← hd]; exact hdur)
  case some.none.none s =>
    cases h
    exact normalized_range_bounds _ _ none (one_le_dayOffset anchor s)
      (one_le_dayOffset anchor s) (by intro n hn; cases hn)
  case some.none.some s n =>
    cases h
    have h1 : 1 ≤ dayOffset anchor s := one_le_dayOffset anchor s
    have hn : 0 < n := durationOf_pos hd
    exact normalized_range_bounds _ _ (some n) h1 (by omega) (by rw [← hd]; exact hdur)
  case some.some.none s e =>
    cases h
    exact normalized_range_bounds _ _ none (one_le_dayOffset anchor s)
      (one_le_dayOffset anchor e) (by intro n hn; cases hn)
  case some.some.some s e n =>
    cases h
    exact normalized_range_bounds _ _ (some n) (one_le_dayOffset anchor s)
      (one_le_dayOffset anchor e) (by rw [← hd]; exact hdur)

theorem recordGet_rangeFold_of_not_mem (anchor : Ymd) (entries : List TimelineEntry)
    (k : String) (hk : ∀ e ∈ entries, e.item.id ≠ k) :
    ∀ acc, recordGet (entries.foldl
      (fun rangeMap entry =>
        match resolveRange anchor entry.item with
        | some range => recordSet rangeMap entry.item.id range
        | none => rangeMap) acc) k = recordGet acc k := by
  induction entries with
  | nil => intro acc; rfl
  | cons e rest ih =>
    intro acc
    rw [List.foldl_cons]
    have he : e.item.id ≠ k := hk e (List.mem_cons_self e rest)
    have ih' := ih (fun x hx => hk x (List.mem_cons_of_mem e hx))
    cases hr : resolveRange anchor e.item with
    | none => simp only [hr]; exact ih' acc
    | some r =>
      simp only [hr]
      rw [ih' _, recordGet_recordSet_ne _ _ _ _ he]

theorem recordGet_rangeFold {anchor : Ymd} {entries : List TimelineEntry}
    {entry : TimelineEntry}
    (hnd : (entries.map (fun e => e.item.id)).Nodup) (hmem : entry ∈ entries) :
    ∀ acc, recordGet acc entry.item.id = none →
      recordGet (entries.foldl
        (fun rangeMap e =>
          match resolveRange anchor e.item with
          | some range => recordSet rangeMap e.item.id range
          | none => rangeMap) acc) entry.item.id = resolveRange anchor entry.item := by
  induction entries with
  | nil => cases hmem
  | cons e rest ih =>
    intro acc hacc
    rw [List.foldl_cons]
    simp only [List.map_cons, List.nodup_cons] at hnd
    rcases List.mem_cons.mp hmem with rfl | hm
    · have hrest : ∀ x ∈ rest, x.item.id ≠ entry.item.id := by
        intro x hx he
        exact hnd.1 (he ▸ List.mem_map_of_mem (fun y => y.item.id) hx)
      cases hr : resolveRange anchor entry.item with
      | none =>
        simp only [hr]
        rw [recordGet_rangeFold_of_not_mem anchor rest _ hrest acc, hacc]
      | some r =>
        simp only [hr]
        rw [recordGet_rangeFold_of_not_mem anchor rest _ hrest _,
          recordGet_recordSet_self]
    · have hne : e.item.id ≠ entry.item.id := by
        intro he
        exact hnd.1 (he ▸ List.mem_map_of_mem (fun y => y.item.id) hm)
      have ih' := ih hnd.2 hm
      cases hr : resolveRange anchor e.item with
      | none => simp only [hr]; exact ih' acc hacc
      | some r =>
        simp only [hr]
        exact ih' _ (by rw [recordGet_recordSet_ne _ _ _ _ hne]; exact hacc)

/-- With pairwise distinct entity ids, looking an entity's id up in the
built range map gives exactly that entity's resolved range. -/
theorem recordGet_resolvedRanges {anchor : Ymd} {entries : List TimelineEntry}
    {entry : TimelineEntry}
    (hnd : (entries.map (fun e => e.item.id)).Nodup) (hmem : entry ∈ entries) :
    recordGet (resolvedRanges anchor entries) entry.item.id = resolveRange anchor entry.item :=
  recordGet_rangeFold hnd hmem [] rfl

theorem resolvedEnds_eq_nil_of_all_none {anchor : Ymd} {entries : List TimelineEntry}
    (h : ∀ e ∈ entries, resolveRange anchor e.item = none) :
    resolvedEnds anchor entries = [] := by
  unfold resolvedEnds
  rw [List.filterMap_eq_nil_iff]
  intro e he
  rw [h e he]
  rfl

theorem one_le_of_mem_resolvedEnds {anchor : Ymd} {entries : List TimelineEntry} {x : Int}
    (hx : x ∈ resolvedEnds anchor entries) : 1 ≤ x := by
  unfold resolvedEnds at hx
  obtain ⟨e, _, hr⟩ := List.mem_filterMap.mp hx
  cases hrr : resolveRange anchor e.item with
  | none => rw [hrr] at hr; cases hr
  | some r =>
    rw [hrr] at hr
    simp only [Option.map_some', Option.some.injEq] at hr
    obtain ⟨h1, h2⟩ := resolveRange_bounds hrr
    omega

theorem columnCount_of_none {startDate : Option DateStr} {entries : List TimelineEntry}
    (h : projectStart startDate = none) :
    columnCount startDate entries = MINIMUM_DAY_COLUMNS := by
  unfold columnCount
  rw [h]

theorem columnCount_of_some {startDate : Option DateStr} {anchor : Ymd}
    {entries : List TimelineEntry} (h : projectStart startDate = some anchor) :
    columnCount startDate entries =
      max (timelineMaxDay anchor entries) MINIMUM_DAY_COLUMNS + 10 := by
  unfold columnCount
  rw [h]

theorem taskDayRange_of_none {startDate : Option DateStr} {entries : List TimelineEntry}
    (h : projectStart startDate = none) :
    taskDayRange startDate entries = [] := by
  unfold taskDayRange
  rw [h]

theorem taskDayRange_of_some {startDate : Option DateStr} {anchor : Ymd}
    {entries : List TimelineEntry} (h : projectStart startDate = some anchor) :
    taskDayRange startDate entries = resolvedRanges anchor entries := by
  unfold taskDayRange
  rw [h]

/-- Generic first-match lemma for `find?` over an append: if nothing in
the prefix matches and `a` matches, the first-seen element `a` is
returned and everything after it is ignored. -/
theorem find?_first_match {α : Type} (p : α → Bool) :
    ∀ (pre : List α) (a : α) (post : List α),
      (∀ b ∈ pre, p b = false) → p a = true →
      (pre ++ a :: post).find? p = some a := by
  intro pre
  induction pre with
  | nil =>
    intro a post _ hpa
    simp [List.find?_cons_of_pos _ hpa]
  | cons b rest ih =>
    intro a post hpre hpa
    rw [List.cons_append, List.find?_cons_of_neg]
    · exact ih a post (fun x hx => hpre x (List.mem_cons_of_mem b hx)) hpa
    · simp [hpre b (List.mem_cons_self b rest)]

/-! ### Claim theorems: timeline layout -/

/-- C1 counterexample: with a valid anchor (`01-01-2024`) and no timeline
entities the set of resolved day ranges is empty, yet the computed
day-column count is `40` (minimum plus padding), not the configured
minimum `30`. -/
theorem C1_counterexample :
    taskDayRange (some sampleAnchorStr) [] = [] ∧
    columnCount (some sampleAnchorStr) [] = 40 ∧
    columnCount (some sampleAnchorStr) [] ≠ 30 := by
  refine ⟨rfl, by decide, by decide⟩

/-- C1 (amended): when no timeline entity yields a range, the computed
column count is the configured minimum `30` (with no padding) only when
the anchor itself is null; with a valid anchor the 10-day padding is
added unconditionally, giving `minimum + padding = 40`. -/
theorem C1_empty_ranges_count (startDate : Option DateStr) (entries : List TimelineEntry) :
    (projectStart startDate = none → columnCount startDate entries = 30) ∧
    (∀ anchor, projectStart startDate = some anchor →
      (∀ e ∈ entries, resolveRange anchor e.item = none) →
      columnCount startDate entries = 40) := by
  constructor
  · intro h
    rw [columnCount_of_none h]
    rfl
  · intro anchor h hall
    rw [columnCount_of_some h, timelineMaxDay_eq_foldl,
      resolvedEnds_eq_nil_of_all_none hall]
    decide

/-- C1 witness: the amended statement applied at a null-anchor input and
at the concrete valid anchor with no entities. -/
theorem C1_empty_ranges_count_witness :
    columnCount none [] = 30 ∧ columnCount (some sampleAnchorStr) [] = 40 :=
  ⟨(C1_empty_ranges_count none []).1 rfl,
   (C1_empty_ranges_count (some sampleAnchorStr) []).2 ⟨2024, 1, 1⟩ rfl (by simp)⟩

/-- C2 counterexample: `2024-01-05` is a valid ISO-8601 startDate (the
dual-format helper `parseProjectStartDate` parses it), yet the
timeline's anchor parse returns null, refuting that the day-range
resolver accepts either format. -/
theorem C2_counterexample :
    projectStart (some (DateStr.isoStr ⟨2024, 1, 5⟩)) = none ∧
    parseProjectStartDate (some (DateStr.isoStr ⟨2024, 1, 5⟩)) = some ⟨2024, 1, 5⟩ :=
  ⟨rfl, rfl⟩

/-- C2 (amended): the anchor parsing used by the day-range resolver
accepts only the strict `DD-MM-YYYY` format — every well-formed
`DD-MM-YYYY` startDate yields a non-null anchor while every ISO-8601
startDate yields a null anchor; the dual-format helper
`parseProjectStartDate` accepts both formats but is not used by this
resolver. -/
theorem C2_anchor_strict_dmy_only (date : Ymd) :
    projectStart (some (DateStr.dmyStr date)) = some date ∧
    projectStart (some (DateStr.isoStr date)) = none ∧
    parseProjectStartDate (some (DateStr.dmyStr date)) = some date ∧
    parseProjectStartDate (some (DateStr.isoStr date)) = some date :=
  ⟨rfl, rfl, rfl, rfl⟩

/-- C4: an entity with no valid start date, a valid end date resolving to
day offset `E`, and a positive duration `d` whose unclamped derived
start `E - d + 1` is at least `1`, resolves to a range whose span
`end - start + 1` is exactly `d`. -/
theorem C4_end_plus_duration_span (anchor : Ymd) (item : TimelineItem) (e : Ymd) (d : Int)
    (hstart : item.startAt.bind dayjsLoose = none)
    (hend : item.endAt.bind dayjsLoose = some e)
    (hdur : item.duration = some d)
    (hd : 0 < d)
    (hunclamped : 1 ≤ dayOffset anchor e - d + 1) :
    ∃ r, resolveRange anchor item = some r ∧ r.«end» - r.start + 1 = d := by
  have hdo : durationOf item = some d := by simp [durationOf, hdur, hd]
  unfold resolveRange
  simp only [hstart, hend, hdo, Option.map_none', Option.map_some', Option.none_orElse',
    Option.some_orElse']
  set E := dayOffset anchor e with hE
  have hmax : max 1 (E - d + 1) = E - d + 1 := max_eq_right hunclamped
  rw [hmax]
  have hminmax : min (E - d + 1) E = E - d + 1 := min_eq_left (by omega)
  have hmaxside : max (E - d + 1) E = E := max_eq_right (by omega)
  rw [hminmax, hmaxside]
  have hif : ¬ (E - d + 1 + d - 1 > E) := by omega
  rw [if_neg hif]
  exact ⟨⟨E - d + 1, E⟩, rfl, show E - (E - d + 1) + 1 = d by omega⟩

/-- C4 witness: task B of the concrete scenario (end `2024-01-10`,
duration `3`, anchor `2024-01-01`) resolves to a range of span `3`. -/
theorem C4_end_plus_duration_span_witness :
    ∃ r, resolveRange ⟨2024, 1, 1⟩ taskB.toItem = some r ∧ r.«end» - r.start + 1 = 3 :=
  C4_end_plus_duration_span ⟨2024, 1, 1⟩ taskB.toItem ⟨2024, 1, 10⟩ 3 rfl rfl rfl
    (by decide) (by decide)

/-- C5: with a valid anchor and a non-empty set of resolved ranges the
column count equals `max(30, maximum range end) + 10`; in particular a
single range `{1, 45}` yields `55`, and the concrete 2024-01-01
scenario resolves task A to `{5, 6}`, task B to `{8, 10}` and yields a
count of `40`. -/
theorem C5_column_count_formula :
    (∀ (startDate : Option DateStr) (entries : List TimelineEntry) (anchor : Ymd),
      projectStart startDate = some anchor →
      resolvedEnds anchor entries ≠ [] →
      ∃ M, M ∈ resolvedEnds anchor entries ∧
        (∀ x ∈ resolvedEnds anchor entries, x ≤ M) ∧
        columnCount startDate entries = max 30 M + 10) ∧
    recordGet (taskDayRange (some sampleAnchorStr) (timelineEntries [] [taskWide]))
      "task-wide" = some ⟨1, 45⟩ ∧
    columnCount (some sampleAnchorStr) (timelineEntries [] [taskWide]) = 55 ∧
    recordGet (taskDayRange (some sampleAnchorStr) scenarioEntries) "task-a" = some ⟨5, 6⟩ ∧
    recordGet (taskDayRange (some sampleAnchorStr) scenarioEntries) "task-b" = some ⟨8, 10⟩ ∧
    columnCount (some sampleAnchorStr) scenarioEntries = 40 := by
  refine ⟨?_, by decide, by decide, by decide, by decide, by decide⟩
  intro startDate entries anchor hanchor hne
  set M := (resolvedEnds anchor entries).foldl max 0 with hM
  have hmem : M ∈ resolvedEnds anchor entries := by
    rcases foldl_max_eq_or_mem (resolvedEnds anchor entries) 0 with h | h
    · obtain ⟨x, hx⟩ := List.exists_mem_of_ne_nil _ hne
      have hx1 := one_le_of_mem_resolvedEnds hx
      have hxle := mem_le_foldl_max hx 0
      rw [← hM] at h
      rw [← hM] at hxle
      omega
    · rw [← hM] at h
      exact h
  refine ⟨M, hmem, fun x hx => by have := mem_le_foldl_max hx 0; rw [← hM] at this; exact this,
    ?_⟩
  rw [columnCount_of_some hanchor, timelineMaxDay_eq_foldl, ← hM]
  show max M 30 + 10 = max 30 M + 10
  rw [max_comm]

/-- C5 witness: the general formula applied to the concrete scenario. -/
theorem C5_column_count_formula_witness :
    ∃ M, M ∈ resolvedEnds ⟨2024, 1, 1⟩ scenarioEntries ∧
      (∀ x ∈ resolvedEnds ⟨2024, 1, 1⟩ scenarioEntries, x ≤ M) ∧
      columnCount (some sampleAnchorStr) scenarioEntries = max 30 M + 10 :=
  C5_column_count_formula.1 (some sampleAnchorStr) scenarioEntries ⟨2024, 1, 1⟩ rfl
    (by decide)

/-- C9: the per-cell action lookup deterministically returns the
first-seen action for a `(taskId, day)` key in iteration order and
ignores subsequent duplicates; it is a total function into `Option`, so
no exception is raised.  In particular, on two duplicate `(t1, 3)`
actions it returns the first object, not the second. -/
theorem C9_first_seen_action (pre : List ActionRes) (a : ActionRes) (post : List ActionRes)
    (taskId : String) (d : Int)
    (hpre : ∀ b ∈ pre, ¬(b.taskId = taskId ∧ b.day = d))
    (ha : a.taskId = taskId ∧ a.day = d) :
    findExistingAction (pre ++ a :: post) taskId d = some a ∧
    findExistingAction [⟨"a1", "t1", 3, "first"⟩, ⟨"a2", "t1", 3, "second"⟩] "t1" 3 =
      some ⟨"a1", "t1", 3, "first"⟩ := by
  refine ⟨?_, by decide⟩
  unfold findExistingAction
  apply find?_first_match
  · intro b hb
    have hnb := hpre b hb
    by_cases h1 : b.taskId = taskId
    · by_cases h2 : b.day = d
      · exact absurd ⟨h1, h2⟩ hnb
      · simp [h2]
    · simp [h1]
  · simp [ha.1, ha.2]

/-- C9 witness: the lookup on a list with one non-matching action
followed by two duplicate `(t1, 3)` actions returns the first
duplicate. -/
theorem C9_first_seen_action_witness :
    findExistingAction
      [⟨"a0", "t9", 1, "other"⟩, ⟨"a1", "t1", 3, "first"⟩, ⟨"a2", "t1", 3, "dup"⟩]
      "t1" 3 = some ⟨"a1", "t1", 3, "first"⟩ :=
  (C9_first_seen_action [⟨"a0", "t9", 1, "other"⟩] ⟨"a1", "t1", 3, "first"⟩
    [⟨"a2", "t1", 3, "dup"⟩] "t1" 3 (by decide) (by decide)).1

/-- C10: when the project startDate is absent or fails the strict
`DD-MM-YYYY` parse the anchor is null, the column count is exactly `30`
(the minimum, without the 10-day padding), the range map is empty, no
cell of any row is active, and the row list still contains one row per
tag and per task. -/
theorem C10_null_anchor_layout (startDate : Option DateStr) (tags : List TagRes)
    (tasks : List TaskRes) (d : Int) (hnone : projectStart startDate = none) :
    columnCount startDate (timelineEntries tags tasks) = 30 ∧
    taskDayRange startDate (timelineEntries tags tasks) = [] ∧
    (∀ entry ∈ timelineEntries tags tasks,
      isActive (recordGet (taskDayRange startDate (timelineEntries tags tasks)) entry.item.id) d
        = false) ∧
    (timelineEntries tags tasks).length = tags.length + tasks.length := by
  have h2 : taskDayRange startDate (timelineEntries tags tasks) = [] :=
    taskDayRange_of_none hnone
  refine ⟨columnCount_of_none hnone, h2, ?_, by simp [timelineEntries]⟩
  intro entry _
  rw [h2]
  rfl

/-- C10 witness: an ISO-8601 startDate (which the strict parse rejects)
with one tag and one task. -/
theorem C10_null_anchor_layout_witness :
    columnCount (some (DateStr.isoStr ⟨2024, 1, 5⟩)) (timelineEntries [] [taskA]) = 30 ∧
    taskDayRange (some (DateStr.isoStr ⟨2024, 1, 5⟩)) (timelineEntries [] [taskA]) = [] ∧
    (∀ entry ∈ timelineEntries [] [taskA],
      isActive
        (recordGet (taskDayRange (some (DateStr.isoStr ⟨2024, 1, 5⟩)) (timelineEntries [] [taskA]))
          entry.item.id) 3 = false) ∧
    (timelineEntries ([] : List TagRes) [taskA]).length = ([] : List TagRes).length + [taskA].length :=
  C10_null_anchor_layout (some (DateStr.isoStr ⟨2024, 1, 5⟩)) [] [taskA] 3 rfl

/-- C8: with a valid anchor and pairwise distinct entity ids, for every
composed row and every day column `d` in `[1, columnCount]`: the cell is
active iff the row's resolved range contains `d`; the end-of-range
marker is flagged exactly on the cell where `d` equals the range's end;
a row whose range is unresolved has no active cell; and the row list
still contains one row per tag and per task. -/
theorem C8_cell_flags (startDate : Option DateStr) (tags : List TagRes) (tasks : List TaskRes)
    (anchor : Ymd) (entry : TimelineEntry) (d : Int)
    (hanchor : projectStart startDate = some anchor)
    (hnd : ((timelineEntries tags tasks).map (fun e => e.item.id)).Nodup)
    (hmem : entry ∈ timelineEntries tags tasks)
    (hlo : 1 ≤ d)
    (hhi : d ≤ columnCount startDate (timelineEntries tags tasks)) :
    (isActive (recordGet (taskDayRange startDate (timelineEntries tags tasks)) entry.item.id) d
        = true ↔
      ∃ r, resolveRange anchor entry.item = some r ∧ r.start ≤ d ∧ d ≤ r.«end») ∧
    (isEndDay (recordGet (taskDayRange startDate (timelineEntries tags tasks)) entry.item.id) d
        = true ↔
      ∃ r, resolveRange anchor entry.item = some r ∧ d = r.«end») ∧
    (resolveRange anchor entry.item = none →
      isActive (recordGet (taskDayRange startDate (timelineEntries tags tasks)) entry.item.id) d
        = false) ∧
    (timelineEntries tags tasks).length = tags.length + tasks.length := by
  have hbridge :
      recordGet (taskDayRange startDate (timelineEntries tags tasks)) entry.item.id
        = resolveRange anchor entry.item := by
    rw [taskDayRange_of_some hanchor]
    exact recordGet_resolvedRanges hnd hmem
  rw [hbridge]
  refine ⟨?_, ?_, ?_, by simp [timelineEntries]⟩
  · cases hr : resolveRange anchor entry.item with
    | none => simp [isActive]
    | some r =>
      simp only [isActive, Bool.and_eq_true, decide_eq_true_eq]
      constructor
      · rintro ⟨h1, h2⟩
        exact ⟨r, rfl, h1, h2⟩
      · rintro ⟨r', hr', h1, h2⟩
        cases hr'
        exact ⟨h1, h2⟩
  · cases hr : resolveRange anchor entry.item with
    | none => simp [isEndDay, isActive]
    | some r =>
      obtain ⟨hb1, hb2⟩ := resolveRange_bounds hr
      simp only [isEndDay, isActive, Bool.and_eq_true, decide_eq_true_eq]
      constructor
      · rintro ⟨⟨_, _⟩, h3⟩
        exact ⟨r, rfl, h3.symm⟩
      · rintro ⟨r', hr', h3⟩
        cases hr'
        exact ⟨⟨by omega, by omega⟩, h3.symm⟩
  · intro hr
    rw [hr]
    rfl

/-- C8 witness: the concrete 2024-01-01 scenario, task A's row, day 6
(its end day). -/
theorem C8_cell_flags_witness :
    (isActive
        (recordGet (taskDayRange (some sampleAnchorStr) scenarioEntries)
          (TimelineEntry.mk EntryType.task taskA.toItem).item.id) 6 = true ↔
      ∃ r, resolveRange ⟨2024, 1, 1⟩ (TimelineEntry.mk EntryType.task taskA.toItem).item = some r ∧
        r.start ≤ 6 ∧ 6 ≤ r.«end») ∧
    (isEndDay
        (recordGet (taskDayRange (some sampleAnchorStr) scenarioEntries)
          (TimelineEntry.mk EntryType.task taskA.toItem).item.id) 6 = true ↔
      ∃ r, resolveRange ⟨2024, 1, 1⟩ (TimelineEntry.mk EntryType.task taskA.toItem).item = some r ∧
        6 = r.«end») ∧
    (resolveRange ⟨2024, 1, 1⟩ (TimelineEntry.mk EntryType.task taskA.toItem).item = none →
      isActive
        (recordGet (taskDayRange (some sampleAnchorStr) scenarioEntries)
          (TimelineEntry.mk EntryType.task taskA.toItem).item.id) 6 = false) ∧
    scenarioEntries.length = ([] : List TagRes).length + [taskA, taskB].length :=
  C8_cell_flags (some sampleAnchorStr) [] [taskA, taskB] ⟨2024, 1, 1⟩
    (TimelineEntry.mk EntryType.task taskA.toItem) 6 rfl (by decide) (by decide)
    (by decide) (by decide)

/-! ### Helper lemmas about the note cache -/

theorem reconcile_idem (tasks : List TaskRes) (prev : TaskNoteCache) :
    reconcile tasks (reconcile tasks prev) = reconcile tasks prev := by
  unfold reconcile
  by_cases h : tasks.isEmpty
  · simp [h]
  · simp only [h, Bool.false_eq_true, if_false]
    rw [List.filter_filter]
    exact List.filter_congr (fun x _ => by rw [Bool.and_self])

theorem reconcileChanged_after_reconcile (tasks : List TaskRes) (prev : TaskNoteCache) :
    reconcileChanged tasks (reconcile tasks prev) = false := by
  unfold reconcile reconcileChanged
  by_cases h : tasks.isEmpty
  · simp [h]
  · simp only [h, Bool.false_eq_true, if_false]
    rw [List.any_eq_false]
    intro p hp
    have hkeep := (List.mem_filter.mp hp).2
    simp [hkeep]

theorem taskNeedsNote_reconcile {tasks : List TaskRes} {prev : TaskNoteCache} {t : TaskRes}
    (hndT : (tasks.map TaskRes.id).Nodup) (hndC : (prev.map Prod.fst).Nodup)
    (hmem : t ∈ tasks) :
    taskNeedsNote (reconcile tasks prev) t = taskNeedsNote prev t := by
  have hne : tasks.isEmpty = false := by
    cases tasks with
    | nil => cases hmem
    | cons a l => rfl
  unfold reconcile
  simp only [hne, Bool.false_eq_true, if_false]
  unfold taskNeedsNote
  cases hnote : t.note with
  | some _ => rfl
  | none =>
    cases hget : recordGet prev t.id with
    | none => rw [recordGet_filter_none hget]
    | some entry =>
      rw [recordGet_filter_some hndC hget]
      by_cases hk : keepEntry tasks (t.id, entry) = true
      · rw [if_pos hk]
      · rw [if_neg hk]
        have hf := find?_task_of_mem hndT hmem
        unfold keepEntry at hk
        rw [hf] at hk
        simp only [bne]
        simp only [Bool.not_eq_true] at hk
        simp [hk]

theorem recordGet_failureFold_of_ne (batch : List TaskRes) (k : String)
    (hk : ∀ t ∈ batch, t.id ≠ k) :
    ∀ c : TaskNoteCache, recordGet (batch.foldl
      (fun (next : TaskNoteCache) task =>
        match recordGet next task.id with
        | some existing =>
          if existing.taskUpdatedAt == task.updatedAt && existing.note == none then next
          else recordSet next task.id ⟨none, task.updatedAt⟩
        | none => recordSet next task.id ⟨none, task.updatedAt⟩) c) k = recordGet c k := by
  induction batch with
  | nil => intro c; rfl
  | cons t rest ih =>
    intro c
    rw [List.foldl_cons]
    have ht : t.id ≠ k := hk t (List.mem_cons_self t rest)
    have ih' := ih (fun x hx => hk x (List.mem_cons_of_mem t hx))
    rw [ih']
    cases hg : recordGet c t.id with
    | none =>
      simp only [hg]
      exact recordGet_recordSet_ne _ _ _ _ ht
    | some existing =>
      simp only [hg]
      by_cases hcond : (existing.taskUpdatedAt == t.updatedAt && existing.note == none) = true
      · rw [if_pos hcond]
      · rw [if_neg hcond]
        exact recordGet_recordSet_ne _ _ _ _ ht

theorem recordGet_applyFetchFailure {batch : List TaskRes} {task : TaskRes}
    (hnd : (batch.map TaskRes.id).Nodup) (hmem : task ∈ batch) :
    ∀ c, recordGet (applyFetchFailure batch c) task.id = some ⟨none, task.updatedAt⟩ := by
  induction batch with
  | nil => cases hmem
  | cons t rest ih =>
    intro c
    unfold applyFetchFailure
    rw [List.foldl_cons]
    simp only [List.map_cons, List.nodup_cons] at hnd
    rcases List.mem_cons.mp hmem with rfl | hm
    · have hrest : ∀ x ∈ rest, x.id ≠ task.id := fun x hx he =>
        hnd.1 (he ▸ List.mem_map_of_mem TaskRes.id hx)
      rw [recordGet_failureFold_of_ne rest _ hrest]
      cases hg : recordGet c task.id with
      | none =>
        simp only [hg]
        exact recordGet_recordSet_self _ _ _
      | some existing =>
        simp only [hg]
        by_cases hcond : (existing.taskUpdatedAt == task.updatedAt && existing.note == none) = true
        · rw [if_pos hcond]
          simp only [Bool.and_eq_true, beq_iff_eq] at hcond
          obtain ⟨existingNote, existingUpd⟩ := existing
          obtain ⟨h1, h2⟩ := hcond
          subst h1
          subst h2
          exact hg
        · rw [if_neg hcond]
          exact recordGet_recordSet_self _ _ _
    · exact ih hnd.2 hm _

theorem filter_live_map_ignore (l : List FetchBatch) :
    (List.filter (fun b => !b.ignore) (l.map (fun b => { b with ignore := true }))).length
      = 0 := by
  induction l with
  | nil => rfl
  | cons b rest ih => simpa using ih

theorem liveBatchCount_cleanup (s : NotesState) :
    liveBatchCount (cleanupFetchEffect s) = 0 :=
  filter_live_map_ignore s.pending

theorem liveBatch_eraseIdx_le (l : List FetchBatch) (i : Nat) :
    (List.filter (fun b => !b.ignore) (l.eraseIdx i)).length ≤
      (List.filter (fun b => !b.ignore) l).length :=
  List.Sublist.length_le (List.Sublist.filter _ (List.eraseIdx_sublist l i))

theorem liveBatchCount_runFetchEffect (s : NotesState) :
    liveBatchCount (runFetchEffect s) ≤ 1 := by
  unfold runFetchEffect cleanupFetchEffect liveBatchCount
  dsimp only
  by_cases h1 : s.tasks.isEmpty
  · simp only [h1, if_true]
    rw [filter_live_map_ignore]
    omega
  · simp only [h1, Bool.false_eq_true, if_false]
    by_cases h2 : (tasksNeedingNotes s.tasks s.taskNotes).isEmpty
    · simp only [h2, if_true]
      rw [filter_live_map_ignore]
      omega
    · simp only [h2, Bool.false_eq_true, if_false]
      rw [List.filter_append, List.length_append, filter_live_map_ignore]
      simp

theorem liveBatchCount_completeFetchFailure_le (i : Nat) (s : NotesState) :
    liveBatchCount (completeFetchFailure i s) ≤ liveBatchCount s := by
  unfold completeFetchFailure
  cases hb : s.pending[i]? with
  | none => exact le_refl _
  | some b =>
    dsimp only
    by_cases hig : b.ignore
    · simp only [hig, if_true]
      exact liveBatch_eraseIdx_le s.pending i
    · simp only [hig, Bool.false_eq_true, if_false]
      exact liveBatch_eraseIdx_le s.pending i

theorem liveBatchCount_completeFetchSuccess_le (i : Nat)
    (fetched : String → Option NoteRes) (s : NotesState) :
    liveBatchCount (completeFetchSuccess i fetched s) ≤ liveBatchCount s := by
  unfold completeFetchSuccess
  cases hb : s.pending[i]? with
  | none => exact le_refl _
  | some b =>
    dsimp only
    by_cases hig : b.ignore
    · simp only [hig, if_true]
      exact liveBatch_eraseIdx_le s.pending i
    · simp only [hig, Bool.false_eq_true, if_false]
      exact liveBatch_eraseIdx_le s.pending i

/-! ### Claim theorems: note cache -/

/-- C3 counterexample: a reachable trace in which two fetch requests for
task `t1` are outstanding at once.  The first effect run issues a batch
for `t1` and `t2`; while it is in flight, `t2` is removed from the task
list, the effects re-run and a second batch containing `t1` is issued
before the first has settled — so a second fetch request for a task
whose fetch is already in flight is issued, refuting the claimed
at-most-one-outstanding-fetch coalescing. -/
theorem C3_counterexample :
    outstandingFor fetchTrace2 "t1" = 2 ∧ ¬ outstandingFor fetchTrace2 "t1" ≤ 1 := by
  refine ⟨by decide, by decide⟩

/-- C3 (amended): the code does not suppress a second fetch for a task
whose fetch is already in flight — a re-run of the note-fetch effect may
re-issue a fetch for such a task (see the counterexample).  What the
code does guarantee is that at most one pending batch is live (not
marked ignored) at any time, because the effect's cleanup marks the
previously issued batch ignored before a new one is issued and ignored
batches' results are discarded on arrival: every step of the system
preserves `liveBatchCount ≤ 1`, so at most one outstanding batch's
results are ever applied to the cache. -/
theorem C3_at_most_one_live_batch (s : NotesState) (newTasks : List TaskRes) (i : Nat)
    (fetched : String → Option NoteRes) (h : liveBatchCount s ≤ 1) :
    liveBatchCount (runFetchEffect s) ≤ 1 ∧
    liveBatchCount (runReconcileEffect s) ≤ 1 ∧
    liveBatchCount (setTasks newTasks s) ≤ 1 ∧
    liveBatchCount (completeFetchFailure i s) ≤ 1 ∧
    liveBatchCount (completeFetchSuccess i fetched s) ≤ 1 :=
  ⟨liveBatchCount_runFetchEffect s, h, h,
    le_trans (liveBatchCount_completeFetchFailure_le i s) h,
    le_trans (liveBatchCount_completeFetchSuccess_le i fetched s) h⟩

/-- C3 witness: the invariant step applied at the concrete initial
state. -/
theorem C3_at_most_one_live_batch_witness :
    liveBatchCount fetchTrace0 ≤ 1 ∧
    (liveBatchCount (runFetchEffect fetchTrace0) ≤ 1 ∧
      liveBatchCount (runReconcileEffect fetchTrace0) ≤ 1 ∧
      liveBatchCount (setTasks [noteTask1] fetchTrace0) ≤ 1 ∧
      liveBatchCount (completeFetchFailure 0 fetchTrace0) ≤ 1 ∧
      liveBatchCount (completeFetchSuccess 0 (fun _ => none) fetchTrace0) ≤ 1) :=
  ⟨by decide,
    C3_at_most_one_live_batch fetchTrace0 [noteTask1] 0 (fun _ => none) (by decide)⟩

/-- C6: when the note fetch for a batch fails (the `Promise.all` rejects
and the catch branch runs), every task of the batch — assuming pairwise
distinct task ids, as produced by the server — ends with the terminal
cache entry `{note: null, taskUpdatedAt: the task's current updatedAt}`;
in particular no task whose fetch has failed is left without a resolved
cache entry. -/
theorem C6_failure_terminal (batchTasks : List TaskRes) (prev : TaskNoteCache)
    (hnd : (batchTasks.map TaskRes.id).Nodup) :
    ∀ task ∈ batchTasks,
      recordGet (applyFetchFailure batchTasks prev) task.id =
        some ⟨none, task.updatedAt⟩ :=
  fun _ hmem => recordGet_applyFetchFailure hnd hmem prev

/-- C6 witness: a failed batch for `t1` and `t2` over a cache holding a
stale entry for `t1`. -/
theorem C6_failure_terminal_witness :
    recordGet
        (applyFetchFailure [noteTask1, noteTask2]
          [("t1", ⟨some ⟨"n1", "old body"⟩, "stale"⟩)])
        noteTask1.id = some ⟨none, noteTask1.updatedAt⟩ :=
  C6_failure_terminal [noteTask1, noteTask2]
    [("t1", ⟨some ⟨"n1", "old body"⟩, "stale"⟩)] (by decide)
    noteTask1 (by decide)

/-- C7: cache reconciliation is idempotent — with an unchanged task list
(pairwise distinct task ids and cache keys), a second `reconcile` run
returns the same cache state, its `changed` flag is `false` (so the
state updater returns the previous object and no downstream effect
re-runs), and the set of tasks marked for a background note fetch is
unchanged by reconciliation, so the second run marks no additional task
for a fetch. -/
theorem C7_reconcile_idempotent (tasks : List TaskRes) (prev : TaskNoteCache)
    (hndT : (tasks.map TaskRes.id).Nodup) (hndC : (prev.map Prod.fst).Nodup) :
    reconcile tasks (reconcile tasks prev) = reconcile tasks prev ∧
    reconcileChanged tasks (reconcile tasks prev) = false ∧
    tasksNeedingNotes tasks (reconcile tasks prev) = tasksNeedingNotes tasks prev := by
  refine ⟨reconcile_idem tasks prev, reconcileChanged_after_reconcile tasks prev, ?_⟩
  unfold tasksNeedingNotes
  exact List.filter_congr (fun t ht => taskNeedsNote_reconcile hndT hndC ht)

/-- C7 witness: two tasks against a cache holding one fresh entry, one
stale entry and one entry for a removed task. -/
theorem C7_reconcile_idempotent_witness :
    reconcile [noteTask1, noteTask2]
        (reconcile [noteTask1, noteTask2]
          [("t1", ⟨none, noteTask1.updatedAt⟩), ("t2", ⟨none, "stale"⟩),
            ("gone", ⟨none, "x"⟩)]) =
      reconcile [noteTask1, noteTask2]
        [("t1", ⟨none, noteTask1.updatedAt⟩), ("t2", ⟨none, "stale"⟩),
          ("gone", ⟨none, "x"⟩)] ∧
    reconcileChanged [noteTask1, noteTask2]
        (reconcile [noteTask1, noteTask2]
          [("t1", ⟨none, noteTask1.updatedAt⟩), ("t2", ⟨none, "stale"⟩),
            ("gone", ⟨none, "x"⟩)]) = false ∧
    tasksNeedingNotes [noteTask1, noteTask2]
        (reconcile [noteTask1, noteTask2]
          [("t1", ⟨none, noteTask1.updatedAt⟩), ("t2", ⟨none, "stale"⟩),
            ("gone", ⟨none, "x"⟩)]) =
      tasksNeedingNotes [noteTask1, noteTask2]
        [("t1", ⟨none, noteTask1.updatedAt⟩), ("t2", ⟨none, "stale"⟩),
          ("gone", ⟨none, "x"⟩)] :=
  C7_reconcile_idempotent [noteTask1, noteTask2]
    [("t1", ⟨none, noteTask1.updatedAt⟩), ("t2", ⟨none, "stale"⟩), ("gone", ⟨none, "x"⟩)]
    (by decide) (by decide)

end TaskTimeline
